import Mathlib

/-!
Verification of the KrknDB hash-indexing layer against its specification.

The definitions below embed, in order:
* util.SHA256Sum (src/internal/util/crypto.go) together with the SHA-256
  compression function and hex encoding it calls;
* the key-format constants of src/internal/kdb/db.go (storedHashPrefix and
  hashTypeLookupPrefix) as the functions obtained by instantiating the
  format strings;
* the counter/recount subsystem of src/unnamed/part_000 (PerformRecount,
  RecountHashType, setCount) over an explicit store state with injected
  I/O faults;
* the construction path New of src/internal/kdb/db.go, including the
  one-time initialization, the retry loop around the engine open, and the
  variadic options handling;
* the batch-search strategy of the query layer, modelled from the spec
  because its file is not among the sources.
-/

set_option maxRecDepth 100000

namespace KrknDB

/-! ### 32-bit arithmetic helpers (Go uint32 semantics) -/

/-- Addition modulo 2^32, Go uint32 addition. -/
def add32 (a b : Nat) : Nat := (a + b) % 2 ^ 32

/-- Right rotation of a 32-bit word. -/
def rotr32 (n x : Nat) : Nat := ((x >>> n) ||| (x <<< (32 - n))) % 2 ^ 32

/-- Bitwise complement of a 32-bit word, written as xor with the all-ones
mask as Go does for uint32. -/
def not32 (x : Nat) : Nat := x ^^^ 0xffffffff

/-! ### SHA-256 (crypto/sha256 as called by util.SHA256Sum) -/

def shaCh (e f g : Nat) : Nat := (e &&& f) ^^^ (not32 e &&& g)

def shaMaj (a b c : Nat) : Nat := (a &&& b) ^^^ (a &&& c) ^^^ (b &&& c)

def bsig0 (x : Nat) : Nat := rotr32 2 x ^^^ rotr32 13 x ^^^ rotr32 22 x

def bsig1 (x : Nat) : Nat := rotr32 6 x ^^^ rotr32 11 x ^^^ rotr32 25 x

def ssig0 (x : Nat) : Nat := rotr32 7 x ^^^ rotr32 18 x ^^^ (x >>> 3)

def ssig1 (x : Nat) : Nat := rotr32 17 x ^^^ rotr32 19 x ^^^ (x >>> 10)

/-- Round constants of SHA-256. -/
def sha256K : List Nat :=
  [1116352408, 1899447441, 3049323471, 3921009573, 961987163,
   1508970993, 2453635748, 2870763221, 3624381080, 310598401,
   607225278, 1426881987, 1925078388, 2162078206, 2614888103,
   3248222580, 3835390401, 4022224774, 264347078, 604807628,
   770255983, 1249150122, 1555081692, 1996064986, 2554220882,
   2821834349, 2952996808, 3210313671, 3336571891, 3584528711,
   113926993, 338241895, 666307205, 773529912, 1294757372,
   1396182291, 1695183700, 1986661051, 2177026350, 2456956037,
   2730485921, 2820302411, 3259730800, 3345764771, 3516065817,
   3600352804, 4094571909, 275423344, 430227734, 506948616,
   659060556, 883997877, 958139571, 1322822218, 1537002063,
   1747873779, 1955562222, 2024104815, 2227730452, 2361852424,
   2428436474, 2756734187, 3204031479, 3329325298]

/-- Working registers of the compression loop. -/
structure Regs where
  a : Nat
  b : Nat
  c : Nat
  d : Nat
  e : Nat
  f : Nat
  g : Nat
  h : Nat

/-- Chaining state of SHA-256 (eight 32-bit words). -/
structure Sha256State where
  h0 : Nat
  h1 : Nat
  h2 : Nat
  h3 : Nat
  h4 : Nat
  h5 : Nat
  h6 : Nat
  h7 : Nat

/-- Initial hash value of SHA-256. -/
def sha256Init : Sha256State :=
  ⟨1779033703, 3144134277, 1013904242, 2773480762,
   1359893119, 2600822924, 528734635, 1541459225⟩

/-- One round of the compression function. -/
def sha256Round (r : Regs) (kw : Nat × Nat) : Regs :=
  let t1 := add32 (add32 (add32 r.h (bsig1 r.e)) (add32 (shaCh r.e r.f r.g) kw.1)) kw.2
  let t2 := add32 (bsig0 r.a) (shaMaj r.a r.b r.c)
  ⟨add32 t1 t2, r.a, r.b, r.c, add32 r.d t1, r.e, r.f, r.g⟩

/-- Big-endian 32-bit word from four bytes of a block. -/
def wordAt (block : List Nat) (i : Nat) : Nat :=
  (block.getD (4 * i) 0 <<< 24) + (block.getD (4 * i + 1) 0 <<< 16) +
    (block.getD (4 * i + 2) 0 <<< 8) + block.getD (4 * i + 3) 0

/-- Message schedule: the first 16 words come from the block, the next 48
are generated by the small sigma recurrence. -/
def msgSchedule (block : List Nat) : List Nat :=
  (List.range 48).foldl
    (fun w _ =>
      let n := w.length
      w ++ [add32 (add32 (ssig1 (w.getD (n - 2) 0)) (w.getD (n - 7) 0))
              (add32 (ssig0 (w.getD (n - 15) 0)) (w.getD (n - 16) 0))])
    ((List.range 16).map (wordAt block))

/-- Compression of one 64-byte block into the chaining state. -/
def sha256Block (st : Sha256State) (block : List Nat) : Sha256State :=
  let w := msgSchedule block
  let r := (sha256K.zip w).foldl sha256Round
    ⟨st.h0, st.h1, st.h2, st.h3, st.h4, st.h5, st.h6, st.h7⟩
  ⟨add32 st.h0 r.a, add32 st.h1 r.b, add32 st.h2 r.c, add32 st.h3 r.d,
   add32 st.h4 r.e, add32 st.h5 r.f, add32 st.h6 r.g, add32 st.h7 r.h⟩

/-- Big-endian 8-byte rendering of a length in bits. -/
def be64 (n : Nat) : List Nat :=
  [n >>> 56 % 256, n >>> 48 % 256, n >>> 40 % 256, n >>> 32 % 256,
   n >>> 24 % 256, n >>> 16 % 256, n >>> 8 % 256, n % 256]

/-- Merkle-Damgard padding: a 0x80 byte, zeros to 56 mod 64, then the
message length in bits as eight big-endian bytes. -/
def sha256Pad (msg : List Nat) : List Nat :=
  let zeros := (120 - (msg.length + 1) % 64) % 64
  msg ++ [0x80] ++ List.replicate zeros 0 ++ be64 (8 * msg.length)

/-- Big-endian bytes of one 32-bit word of the digest. -/
def wordBytes (w : Nat) : List Nat :=
  [w >>> 24 % 256, w >>> 16 % 256, w >>> 8 % 256, w % 256]

/-- SHA-256 digest (32 bytes) of a byte string. -/
def sha256Bytes (msg : List Nat) : List Nat :=
  let st := ((sha256Pad msg).toChunks 64).foldl sha256Block sha256Init
  wordBytes st.h0 ++ wordBytes st.h1 ++ wordBytes st.h2 ++ wordBytes st.h3 ++
    wordBytes st.h4 ++ wordBytes st.h5 ++ wordBytes st.h6 ++ wordBytes st.h7

/-! ### Hex encoding (encoding/hex as called by util.SHA256Sum) -/

/-- Lowercase hex digit, the hextable lookup of encoding/hex. -/
def hexDigit (n : Nat) : Char :=
  if n < 10 then Char.ofNat (48 + n) else Char.ofNat (87 + n)

/-- Hex encoding of a byte string, two lowercase digits per byte. -/
def hexEncode (bs : List Nat) : List Char :=
  bs.flatMap (fun b => [hexDigit (b >>> 4), hexDigit (b % 16)])

/-- UTF-8 bytes of one character, the Go conversion byte-slice-of-string
applied character by character. -/
def utf8Bytes (c : Char) : List Nat :=
  let n := c.toNat
  if n < 0x80 then [n]
  else if n < 0x800 then [0xc0 ||| (n >>> 6), 0x80 ||| (n % 64)]
  else if n < 0x10000 then
    [0xe0 ||| (n >>> 12), 0x80 ||| ((n >>> 6) % 64), 0x80 ||| (n % 64)]
  else
    [0xf0 ||| (n >>> 18), 0x80 ||| ((n >>> 12) % 64),
     0x80 ||| ((n >>> 6) % 64), 0x80 ||| (n % 64)]

/-- Byte string of a Go string (UTF-8). -/
def stringBytes (s : String) : List Nat := s.data.flatMap utf8Bytes

/-- Embedding of util.SHA256Sum (src/internal/util/crypto.go): the
hex-encoded SHA-256 sum of the data, returned as the text it spells. -/
def SHA256Sum (data : String) : String :=
  String.mk (hexEncode (sha256Bytes (stringBytes data)))

/-! ### Decimal rendering

Go renders the hash type with the verb %d; the embedding uses Nat.repr,
which produces the same decimal digits.  The lemmas below recover a number
from its rendering, which gives injectivity, and show every rendered
character is a decimal digit. -/

/-- Decimal value of a digit string, folding left to right. -/
def parseDec (cs : List Char) : Nat :=
  cs.foldl (fun a c => a * 10 + (c.toNat - 48)) 0

/-! ### Key codec (src/internal/kdb/db.go, lines 19-22)

The source declares two format strings and instantiates them with
fmt.Sprintf; the definitions below are those instantiations.  Note that
hashTypeLookupPrefix is the literal "krkn:%d": it carries no trailing
colon. -/

/-- Instantiation of the constant storedHashPrefix = "krkn:%d:%v" at a hash
type and a stored sum: the canonical record key. -/
def storedHashPrefix (hashType : Nat) (sum : String) : String :=
  "krkn:" ++ Nat.repr hashType ++ ":" ++ sum

/-- Instantiation of the constant hashTypeLookupPrefix = "krkn:%d" at a
hash type: the byte string PerformRecount and RecountHashType use to bound
their ordered scans.  The format string has no trailing colon. -/
def hashTypeLookupPrefix (hashType : Nat) : String :=
  "krkn:" ++ Nat.repr hashType

/-- Spec-side definition, for comparison with the code: the spec's
TypePrefix(hashType) is the string "krkn:" followed by the decimal
rendering of the hash type followed by ":". -/
def specTypePrefix (hashType : Nat) : String :=
  "krkn:" ++ Nat.repr hashType ++ ":"

/-- Modelled from the spec: the Key field built by NewHash (its file is not
among the sources) applies the storedHashPrefix format to the hash type and
the SHA256Sum of the original hash. -/
def Encode (hashType : Nat) (originalHash : String) : String :=
  storedHashPrefix hashType (SHA256Sum originalHash)

/-- Byte-string comparison of a scan bound against a key: BadgerDB's
ValidForPrefix visits exactly the keys the bound is a byte prefix of.  All
keys here are ASCII, so the character-level comparison is the byte one. -/
def keyHasPfx (p s : String) : Bool := p.data.isPrefixOf s.data

/-- Lexicographic byte order on character lists: the iteration order of
the collaborator over its keyspace (keys here are ASCII, so character
order coincides with byte order). -/
def charListLt : List Char → List Char → Bool
  | [], [] => false
  | [], _ :: _ => true
  | _ :: _, [] => false
  | a :: as, b :: bs =>
    if a.toNat < b.toNat then true
    else if b.toNat < a.toNat then false
    else charListLt as bs

/-- Ascending key order of the collaborator. -/
def keyLt (a b : String) : Bool := charListLt a.data b.data

/-! ### Counter and recount subsystem (src/unnamed/part_000)

The store state carries the stored record keys, the counter cells and the
hash-type registry.  Modelled from the spec: the reserved-key formats
hashTypeCountPrefix and totalHashesKey and the function
getRegisteredHashTypes are not among the sources; per the spec there is
one counter cell per hash type plus one total cell, all disjoint from the
record keyspace, and the registry is a persisted set of hash types.
setCount stores its value as an 8-byte big-endian unsigned integer; the
cells below hold the integer itself, which that encoding represents
faithfully.  BadgerDB holds each key once, so the record keys form a
duplicate-free list. -/

structure Db where
  keys : List String
  typeCounts : Nat → Option Nat
  totalCount : Option Nat
  registry : List Nat

/-- Fault injection for the I/O a recount performs: the registry read, the
key-only scan and the counter write of the i-th registered type, and the
final write of the total counter. -/
structure IoFaults where
  regFail : Bool
  scanFail : Nat → Bool
  setFail : Nat → Bool
  totalFail : Bool

/-- Fault-free schedule. -/
def noFaults : IoFaults := ⟨false, fun _ => false, fun _ => false, false⟩

/-- Key-only ordered scan bounded by a byte string, counting the visited
keys, as the View closures of PerformRecount and RecountHashType do. -/
def countKeysWithPfx (keys : List String) (p : String) : Nat :=
  (keys.filter (fun k => keyHasPfx p k)).length

/-- Count the loop of part_000 computes for one hash type: a scan bounded
by hashTypeLookupPrefix over the store's keys. -/
def scanCount (db : Db) (hashType : Nat) : Nat :=
  countKeysWithPfx db.keys (hashTypeLookupPrefix hashType)

/-- Number of records genuinely of one hash type: keys of the canonical
form, which all start with the colon-terminated type marker. -/
def trueCount (db : Db) (hashType : Nat) : Nat :=
  countKeysWithPfx db.keys (specTypePrefix hashType)

/-- Write of one hash type's counter cell. -/
def setTypeCount (db : Db) (hashType n : Nat) : Db :=
  { db with typeCounts := fun u => if u = hashType then some n else db.typeCounts u }

/-- Embedding of the per-type loop of PerformRecount: for each registered
type in order, scan (may fail), then write that type's counter (may fail),
accumulating the running total.  Returns the store, the accumulated total
and whether the loop completed. -/
def recountLoop (fl : IoFaults) : List Nat → Nat → Nat → Db → Db × Nat × Bool
  | [], _, acc, db => (db, acc, true)
  | t :: rest, i, acc, db =>
    if fl.scanFail i then (db, acc, false)
    else
      let count := scanCount db t
      if fl.setFail i then (db, acc, false)
      else recountLoop fl rest (i + 1) (acc + count) (setTypeCount db t count)

/-- Embedding of PerformRecount (src/unnamed/part_000, lines 13-81): read
the registry; if it is empty write 0 to the total counter; otherwise run
the per-type loop and finally write the accumulated total.  The boolean is
false exactly when an error is returned, and the store is returned as the
operation leaves it. -/
def PerformRecount (fl : IoFaults) (db : Db) : Db × Bool :=
  if fl.regFail then (db, false)
  else if db.registry.isEmpty then
    if fl.totalFail then (db, false)
    else ({ db with totalCount := some 0 }, true)
  else
    let r := recountLoop fl db.registry 0 0 db
    if !r.2.2 then (r.1, false)
    else if fl.totalFail then (r.1, false)
    else ({ r.1 with totalCount := some r.2.1 }, true)

/-- Embedding of RecountHashType (src/unnamed/part_000, lines 84-120):
scan one type's keys (may fail) and write that type's counter (may fail).
The first fault flag plays the scan failure, the second the write. -/
def RecountHashType (scanFl setFl : Bool) (hashType : Nat) (db : Db) : Db × Bool :=
  if scanFl then (db, false)
  else
    let count := scanCount db hashType
    if setFl then (db, false)
    else (setTypeCount db hashType count, true)

/-! ### Construction path (src/internal/kdb/db.go, New, lines 38-134)

The process-wide state is the pair initOnce/cache; the environment
abstracts the collaborators New consults: filepath.Abs, util.PathExists,
os.MkdirAll and badger.Open (per attempt).  The model follows the source
statement by statement: the key-length check, the path resolution, the
variadic options handling (whose condition the source inverts: with at
least one option it builds DefaultOptions, with none it reads opts[0] of
an empty slice, a runtime panic), then the once-guarded body with the
bounded retry loop. -/

/-- Process-wide state: whether initOnce has run, and the cached handle. -/
structure Glob where
  initDone : Bool
  cache : Option Unit
deriving DecidableEq

/-- Process state before any call to New. -/
def glob0 : Glob := ⟨false, none⟩

inductive NewErr where
  /-- Rejection of an encryption key whose length is not 32 bytes. -/
  | configErr : NewErr
  /-- Failure of filepath.Abs. -/
  | absErr : NewErr
  /-- Failure to create the database directory. -/
  | mkdirErr : NewErr
  /-- Failure to open the engine; carries the index of the attempt whose
  error the returned error wraps. -/
  | openErr : Nat → NewErr
deriving DecidableEq

/-- Outcome of a call to New: either a Go runtime panic, or a normal
return of a handle value and an error value. -/
inductive NewOutcome where
  | panicked : NewOutcome
  | ret : Option Unit → Option NewErr → NewOutcome
deriving DecidableEq

/-- Environment of one call: collaborator behavior. openOk i tells whether
the i-th badger.Open attempt succeeds. -/
structure Env where
  absOk : Bool
  pathExists : Bool
  mkdirOk : Bool
  openOk : Nat → Bool

/-- Embedding of the length check of New: len(encryptionKey) == 0 ||
len(encryptionKey) != 32. -/
def keyLenCheckFails (n : Nat) : Bool := n == 0 || n != 32

/-- Embedding of the retry loop around badger.Open: at most the given fuel
many attempts starting at index i, stopping at the first success, with one
fixed delay after every failed attempt except the last.  Returns the
number of attempts made, the number of delays slept, and success. -/
def openLoop (openOk : Nat → Bool) : Nat → Nat → Nat × Nat × Bool
  | _, 0 => (0, 0, false)
  | i, fuel + 1 =>
    if openOk i then (1, 0, true)
    else if fuel == 0 then (1, 0, false)
    else
      let r := openLoop openOk (i + 1) fuel
      (r.1 + 1, r.2.1 + 1, r.2.2)

/-- Body guarded by initOnce.Do plus the return statements that follow it:
when initialization already ran, the closure is skipped and New returns the
cached handle with a nil error; otherwise the closure creates the directory
if needed, opens the engine with up to 3 attempts, and either caches the
new handle or leaves the cache nil and reports the error.  sync.Once marks
itself done even when the closure fails. -/
def newDo (g : Glob) (env : Env) : Glob × NewOutcome :=
  if g.initDone then (g, .ret g.cache none)
  else if !env.pathExists && !env.mkdirOk then
    (⟨true, none⟩, .ret none (some .mkdirErr))
  else
    let r := openLoop env.openOk 0 3
    if r.2.2 then (⟨true, some ()⟩, .ret (some ()) none)
    else (⟨true, none⟩, .ret none (some (.openErr (r.1 - 1))))

/-- Embedding of New (src/internal/kdb/db.go): the argument checks run in
source order, and optsLen is the number of variadic Options values the
caller passed. -/
def New (g : Glob) (env : Env) (keyLen optsLen : Nat) : Glob × NewOutcome :=
  if keyLenCheckFails keyLen then (g, .ret none (some .configErr))
  else if !env.absOk then (g, .ret none (some .absErr))
  else if 0 < optsLen then newDo g env
  else (g, .panicked)

/-! ### Batch search (query layer)

Modelled from the spec: the query layer's file is not among the sources.
Per the spec, FindByHashes builds an in-memory set of canonical keys for
every entry of the search list, performs exactly one ordered scan bounded
by TypePrefix(hashType), and emits each scanned record whose key is in the
set, in ascending key order.  The store is represented as the list of
stored records in ascending key order, the collaborator's iteration
order. -/

/-- Stored record: original hash text, recovered value, hash type, and the
canonical key it was stored under. -/
structure HashRec where
  orig : String
  value : String
  hashType : Nat
  key : String
deriving DecidableEq

/-- Modelled from the spec: ordered scan bounded by the spec's TypePrefix,
over a store listed in ascending key order. -/
def scanOfType (t : Nat) (db : List HashRec) : List HashRec :=
  db.filter (fun r => keyHasPfx (specTypePrefix t) r.key)

/-- Modelled from the spec: FindByHashes as the single scan filtered by
membership of the scanned key in the derived key set. -/
def findByHashes (searchList : List String) (t : Nat) (db : List HashRec) :
    List HashRec :=
  (scanOfType t db).filter (fun r => (searchList.map (Encode t)).contains r.key)

/-! ### Concrete inputs used by the evaluation theorems -/

/-- Environment in which every collaborator call succeeds. -/
def envOk : Env := ⟨true, true, true, fun _ => true⟩

/-- Environment in which every attempt to open the engine fails. -/
def envAllFail : Env := ⟨true, true, true, fun _ => false⟩

/-- Store holding one record of hash type 1 and one of hash type 14, with
both types registered and all counters absent. -/
def dbTwoTypes : Db :=
  { keys := [storedHashPrefix 1 (SHA256Sum "a"), storedHashPrefix 14 (SHA256Sum "b")]
    typeCounts := fun _ => none
    totalCount := none
    registry := [1, 14] }

/-- Store with two registered types whose decimal renderings do not share
a prefix, used to exercise the partial-failure path. -/
def dbPartial : Db :=
  { keys := [storedHashPrefix 0 (SHA256Sum "a"), storedHashPrefix 1400 (SHA256Sum "b")]
    typeCounts := fun _ => some 7
    totalCount := some 7
    registry := [0, 1400] }

/-- Fault schedule failing the scan of the second registered type. -/
def faultsAtSecond : IoFaults := ⟨false, fun i => i == 1, fun _ => false, false⟩

/-- Store for the recount frame theorem's witness. -/
def dbFrame : Db :=
  { keys := [storedHashPrefix 0 (SHA256Sum "a")]
    typeCounts := fun u => if u = 3 then some 5 else none
    totalCount := some 1
    registry := [0] }

/-- Records for the batch-search witness, in ascending key order. -/
def dbRecs : List HashRec :=
  [⟨"b", "vb", 0, Encode 0 "b"⟩, ⟨"a", "va", 0, Encode 0 "a"⟩]

/-! ### Proofs -/

/-- Known-answer test of the SHA-256 embedding (FIPS 180-2 vector). -/
theorem sha256Sum_abc :
    SHA256Sum "abc" =
      "ba7816bf8f01cfea414140de5dae2223b00361a396177a9cb410ff61f20015ad" := by
  decide

theorem digitChar_toNat {m : Nat} (hm : m < 10) : (Nat.digitChar m).toNat = 48 + m := by
  interval_cases m <;> rfl

theorem digitChar_isDigit {m : Nat} (hm : m < 10) :
    48 ≤ (Nat.digitChar m).toNat ∧ (Nat.digitChar m).toNat ≤ 57 := by
  rw [digitChar_toNat hm]; omega

theorem toDigitsCore_append (f n : Nat) (ds : List Char) :
    Nat.toDigitsCore 10 f n ds = Nat.toDigitsCore 10 f n [] ++ ds := by
  induction f generalizing n ds with
  | zero => simp [Nat.toDigitsCore]
  | succ f ih =>
    simp only [Nat.toDigitsCore]
    by_cases h : n / 10 = 0
    · simp [h]
    · simp only [h, if_false]
      rw [ih (n / 10) (Nat.digitChar (n % 10) :: ds),
          ih (n / 10) [Nat.digitChar (n % 10)]]
      simp

theorem parseDec_append_digit (xs : List Char) (c : Char) :
    parseDec (xs ++ [c]) = parseDec xs * 10 + (c.toNat - 48) := by
  simp [parseDec, List.foldl_append]

theorem parseDec_toDigitsCore (f : Nat) :
    ∀ n : Nat, n < 10 ^ f → parseDec (Nat.toDigitsCore 10 f n []) = n := by
  induction f with
  | zero =>
    intro n hn
    interval_cases n
    rfl
  | succ f ih =>
    intro n hn
    simp only [Nat.toDigitsCore]
    have hmod : n % 10 < 10 := Nat.mod_lt _ (by omega)
    by_cases h : n / 10 = 0
    · simp only [h, if_true]
      have := Nat.div_add_mod n 10
      simp [parseDec, digitChar_toNat hmod]
      omega
    · simp only [h, if_false]
      rw [toDigitsCore_append, parseDec_append_digit, digitChar_toNat hmod]
      have hdiv : n / 10 < 10 ^ f := by
        rw [Nat.div_lt_iff_lt_mul (by omega)]
        calc n < 10 ^ (f + 1) := hn
        _ = 10 ^ f * 10 := by ring
      rw [ih (n / 10) hdiv]
      have := Nat.div_add_mod n 10
      omega

theorem parseDec_repr (n : Nat) : parseDec (Nat.repr n).data = n := by
  have hlt : n < 10 ^ (n + 1) := by
    calc n < 10 ^ n := Nat.lt_pow_self (by omega) n
    _ ≤ 10 ^ (n + 1) := Nat.pow_le_pow_right (by omega) (by omega)
  simpa [Nat.repr, Nat.toDigits, List.asString] using
    parseDec_toDigitsCore (n + 1) n hlt

/-- Decimal rendering of distinct numbers is distinct. -/
theorem repr_injective {a b : Nat} (h : Nat.repr a = Nat.repr b) : a = b := by
  have := congrArg (fun s => parseDec s.data) h
  simpa [parseDec_repr] using this

theorem toDigitsCore_digits (f : Nat) :
    ∀ (n : Nat) (ds : List Char),
      (∀ c ∈ ds, 48 ≤ c.toNat ∧ c.toNat ≤ 57) →
      ∀ c ∈ Nat.toDigitsCore 10 f n ds, 48 ≤ c.toNat ∧ c.toNat ≤ 57 := by
  induction f with
  | zero => intro n ds hds; simpa [Nat.toDigitsCore] using hds
  | succ f ih =>
    intro n ds hds c hc
    simp only [Nat.toDigitsCore] at hc
    by_cases h : n / 10 = 0
    · simp only [h, if_true] at hc
      rcases List.mem_cons.mp hc with rfl | hmem
      · exact digitChar_isDigit (Nat.mod_lt _ (by omega))
      · exact hds _ hmem
    · simp only [h, if_false] at hc
      refine ih (n / 10) _ ?_ c hc
      intro c' hc'
      rcases List.mem_cons.mp hc' with rfl | hmem
      · exact digitChar_isDigit (Nat.mod_lt _ (by omega))
      · exact hds _ hmem

/-- Every character of the decimal rendering is a decimal digit; in
particular no rendering contains a colon (code 58). -/
theorem repr_chars_digit (n : Nat) :
    ∀ c ∈ (Nat.repr n).data, 48 ≤ c.toNat ∧ c.toNat ≤ 57 := by
  intro c hc
  simp only [Nat.repr, Nat.toDigits, List.asString] at hc
  exact toDigitsCore_digits (n + 1) n [] (by simp) c hc


theorem string_data_append (a b : String) : (a ++ b).data = a.data ++ b.data := by
  cases a; cases b; rfl

/-! ### Digest length and character facts (claim C2 support) -/

theorem length_hexEncode (bs : List Nat) : (hexEncode bs).length = 2 * bs.length := by
  induction bs with
  | nil => rfl
  | cons b bs ih => simp [hexEncode, List.flatMap_cons] at ih ⊢; omega

theorem length_sha256Bytes (msg : List Nat) : (sha256Bytes msg).length = 32 := by
  simp [sha256Bytes, wordBytes]

theorem length_SHA256Sum (data : String) : (SHA256Sum data).length = 64 := by
  show (hexEncode (sha256Bytes (stringBytes data))).length = 64
  rw [length_hexEncode, length_sha256Bytes]

theorem sha256Bytes_lt (msg : List Nat) : ∀ b ∈ sha256Bytes msg, b < 256 := by
  intro b hb
  simp [sha256Bytes, wordBytes] at hb
  rcases hb with h | h | h | h | h | h | h | h <;>
    rcases h with h | h | h | h <;> omega

theorem hexDigit_mem {n : Nat} (hn : n < 16) :
    hexDigit n ∈ ("0123456789abcdef").data := by
  interval_cases n <;> decide

theorem SHA256Sum_chars (data : String) :
    ∀ c ∈ (SHA256Sum data).data, c ∈ ("0123456789abcdef").data := by
  intro c hc
  have hc' : c ∈ hexEncode (sha256Bytes (stringBytes data)) := hc
  simp only [hexEncode, List.mem_flatMap] at hc'
  obtain ⟨b, hb, hcb⟩ := hc'
  have hblt : b < 256 := sha256Bytes_lt _ b hb
  have h4 : b >>> 4 < 16 := by
    rw [Nat.shiftRight_eq_div_pow]
    omega
  have h16 : b % 16 < 16 := Nat.mod_lt _ (by omega)
  rcases List.mem_cons.mp hcb with rfl | hcb'
  · exact hexDigit_mem h4
  · rcases List.mem_cons.mp hcb' with rfl | h
    · exact hexDigit_mem h16
    · simp at h


/-! ### Claim theorems -/

/-- Claim C2: for every hash type t and original-hash text h, key
derivation is deterministic and produces exactly the byte string "krkn:"
followed by the decimal rendering of t, a colon, and the hex SHA-256 sum
of h, which is always exactly 64 lowercase hex characters regardless of
the length of h. -/
theorem encode_key_format (t : Nat) (h : String) :
    Encode t h = "krkn:" ++ Nat.repr t ++ ":" ++ SHA256Sum h ∧
    (SHA256Sum h).length = 64 ∧
    ∀ c ∈ (SHA256Sum h).data, c ∈ ("0123456789abcdef").data :=
  ⟨rfl, length_SHA256Sum h, SHA256Sum_chars h⟩

/-- Claim C1, evaluated at the failing input: the scan bound the code
derives for hash type 1 is "krkn:1", not the spec's "krkn:1:", and it is a
byte prefix of a type-14 record key, so a scan bounded by it visits keys
of hash type 14. -/
theorem lookup_bound_missing_colon :
    hashTypeLookupPrefix 1 = "krkn:1" ∧
    specTypePrefix 1 = "krkn:1:" ∧
    hashTypeLookupPrefix 1 ≠ specTypePrefix 1 ∧
    keyHasPfx (hashTypeLookupPrefix 1) (storedHashPrefix 14 (SHA256Sum "x")) = true ∧
    keyHasPfx (specTypePrefix 1) (storedHashPrefix 14 (SHA256Sum "x")) = false := by
  decide

/-- Claim C3, evaluated at the failing input: on a store whose registry
lists exactly the types with stored records (one record of type 1, one of
type 14), a fault-free PerformRecount returns success but writes 2 as the
counter of type 1 and 3 as the total, although the true counts are 1, 1
and 2: the colon-less scan bound of type 1 also counts the type-14
record. -/
theorem performRecount_crosstype_miscount :
    (PerformRecount noFaults dbTwoTypes).2 = true ∧
    trueCount dbTwoTypes 1 = 1 ∧
    trueCount dbTwoTypes 14 = 1 ∧
    (PerformRecount noFaults dbTwoTypes).1.typeCounts 1 = some 2 ∧
    (PerformRecount noFaults dbTwoTypes).1.typeCounts 14 = some 1 ∧
    (PerformRecount noFaults dbTwoTypes).1.totalCount = some 3 := by
  decide

/-- Claim C4, evaluated at the failing input: a call to New with a valid
32-byte key and no explicit options reads the first element of the empty
variadic slice and panics, because the source inverts the options check;
no ConfigError or OpenError is returned. -/
theorem new_without_options_panics :
    New glob0 envOk 32 0 = (glob0, .panicked) := by
  decide

/-- Claim C10: the length check of New rejects exactly the keys whose
length is not 32 bytes, and a rejected call returns a ConfigError while
the process state is left untouched; a 32-byte key passes the check. -/
theorem encryption_key_length_check :
    (∀ n : Nat, keyLenCheckFails n = true ↔ n ≠ 32) ∧
    (∀ (g : Glob) (env : Env) (n optsLen : Nat), n ≠ 32 →
      New g env n optsLen = (g, .ret none (some .configErr))) := by
  have hiff : ∀ n : Nat, keyLenCheckFails n = true ↔ n ≠ 32 := by
    intro n
    simp [keyLenCheckFails]
    omega
  refine ⟨hiff, ?_⟩
  intro g env n optsLen hn
  have : keyLenCheckFails n = true := (hiff n).mpr hn
  simp [New, this]

/-- Witness for claim C10 at the concrete key length 31. -/
theorem encryption_key_length_check_witness :
    (31 : Nat) ≠ 32 ∧
    New glob0 envOk 31 1 = (glob0, .ret none (some .configErr)) :=
  ⟨by decide, encryption_key_length_check.2 glob0 envOk 31 1 (by decide)⟩

/-- Claim C9: a successful RecountHashType writes only the per-type
counter of its argument, set to the scanned count; the record keys, the
registry, the total counter and every other type's counter are left
unchanged. -/
theorem recountHashType_only_own_counter (scanFl setFl : Bool) (t : Nat) (db : Db)
    (hok : (RecountHashType scanFl setFl t db).2 = true) :
    (RecountHashType scanFl setFl t db).1.keys = db.keys ∧
    (RecountHashType scanFl setFl t db).1.registry = db.registry ∧
    (RecountHashType scanFl setFl t db).1.totalCount = db.totalCount ∧
    (RecountHashType scanFl setFl t db).1.typeCounts t = some (scanCount db t) ∧
    ∀ u, u ≠ t → (RecountHashType scanFl setFl t db).1.typeCounts u = db.typeCounts u := by
  cases scanFl with
  | true => simp [RecountHashType] at hok
  | false =>
    cases setFl with
    | true => simp [RecountHashType] at hok
    | false =>
      refine ⟨rfl, rfl, rfl, ?_, ?_⟩
      · simp [RecountHashType, setTypeCount]
      · intro u hu
        simp [RecountHashType, setTypeCount, hu]

/-- Witness for claim C9 on a concrete store with a counter of another
type present. -/
theorem recountHashType_only_own_counter_witness :
    (RecountHashType false false 0 dbFrame).2 = true ∧
    (RecountHashType false false 0 dbFrame).1.totalCount = dbFrame.totalCount ∧
    (RecountHashType false false 0 dbFrame).1.typeCounts 0 = some (scanCount dbFrame 0) ∧
    (RecountHashType false false 0 dbFrame).1.typeCounts 3 = dbFrame.typeCounts 3 :=
  ⟨by decide,
   (recountHashType_only_own_counter false false 0 dbFrame (by decide)).2.2.1,
   (recountHashType_only_own_counter false false 0 dbFrame (by decide)).2.2.2.1,
   (recountHashType_only_own_counter false false 0 dbFrame (by decide)).2.2.2.2 3 (by decide)⟩

/-- Evaluation of the retry loop by cases on the first three attempts. -/
theorem openLoop3_eval (openOk : Nat → Bool) :
    openLoop openOk 0 3 =
      if openOk 0 then (1, 0, true)
      else if openOk 1 then (2, 1, true)
      else if openOk 2 then (3, 2, true)
      else (3, 2, false) := by
  by_cases h0 : openOk 0 <;> by_cases h1 : openOk 1 <;> by_cases h2 : openOk 2 <;>
    simp [openLoop, h0, h1, h2]

/-- Claim C7: the engine is opened with at most 3 attempts; the loop stops
at the first success; exactly one fixed delay separates consecutive
attempts, so the number of delays is one less than the number of attempts
and no delay follows the final attempt; and when all 3 attempts fail, New
returns an OpenError wrapping the failure of the last attempt (index 2). -/
theorem open_retry_budget (openOk : Nat → Bool) :
    (openLoop openOk 0 3).1 ≤ 3 ∧
    (openLoop openOk 0 3).2.1 = (openLoop openOk 0 3).1 - 1 ∧
    (∀ k, k < 3 → openOk k = true → (∀ i, i < k → openOk i = false) →
      openLoop openOk 0 3 = (k + 1, k, true)) ∧
    ((∀ i, i < 3 → openOk i = false) → openLoop openOk 0 3 = (3, 2, false)) ∧
    (∀ (env : Env) (optsLen : Nat), env.openOk = openOk → env.absOk = true →
      (env.pathExists = true ∨ env.mkdirOk = true) → 0 < optsLen →
      (∀ i, i < 3 → openOk i = false) →
      New glob0 env 32 optsLen = (⟨true, none⟩, .ret none (some (.openErr 2)))) := by
  refine ⟨?_, ?_, ?_, ?_, ?_⟩
  · rw [openLoop3_eval]; split_ifs <;> simp
  · rw [openLoop3_eval]; split_ifs <;> simp
  · intro k hk hks hkf
    interval_cases k
    · rw [openLoop3_eval]; simp [hks]
    · rw [openLoop3_eval]; simp [hkf 0 (by omega), hks]
    · rw [openLoop3_eval]; simp [hkf 0 (by omega), hkf 1 (by omega), hks]
  · intro hall
    rw [openLoop3_eval]
    simp [hall 0 (by omega), hall 1 (by omega), hall 2 (by omega)]
  · intro env optsLen heq habs hmk hopts hall
    have hloop : openLoop env.openOk 0 3 = (3, 2, false) := by
      rw [heq, openLoop3_eval]
      simp [hall 0 (by omega), hall 1 (by omega), hall 2 (by omega)]
    rcases hmk with h | h <;>
      simp [New, keyLenCheckFails, habs, hopts, newDo, glob0, hloop, h]

/-- Witness for claim C7: all attempts fail in the concrete all-failing
environment. -/
theorem open_retry_budget_witness :
    openLoop (fun _ => false) 0 3 = (3, 2, false) ∧
    New glob0 envAllFail 32 1 = (⟨true, none⟩, .ret none (some (.openErr 2))) :=
  ⟨(open_retry_budget (fun _ => false)).2.2.2.1 (fun _ _ => rfl),
   (open_retry_budget (fun _ => false)).2.2.2.2 envAllFail 1 rfl rfl (Or.inl rfl)
     (by decide) (fun _ _ => rfl)⟩

/-- Claim C5 counterexample: after a first call whose engine open fails,
a subsequent call with a valid key but without explicit options panics on
the inverted options check, so not every subsequent call with valid
arguments returns a nil handle and nil error. -/
theorem new_after_failed_open_no_opts_panics :
    (New glob0 envAllFail 32 1).1 = ⟨true, none⟩ ∧
    New ⟨true, none⟩ envOk 32 0 = (⟨true, none⟩, .panicked) ∧
    New ⟨true, none⟩ envOk 32 0 ≠ (⟨true, none⟩, .ret none none) := by
  decide

/-- Claim C5 (amended): if the first call to New fails all engine-open
attempts, initialization is consumed (the once flag is set with a nil
cache) and every subsequent call that passes the key-length check, path
resolution, and supplies at least one explicit options value returns a nil
store handle together with a nil error. -/
theorem new_after_failed_open_returns_nil_nil
    (env1 env2 : Env) (optsLen1 optsLen2 : Nat)
    (habs1 : env1.absOk = true) (hmk1 : env1.pathExists = true ∨ env1.mkdirOk = true)
    (hopen1 : ∀ i, i < 3 → env1.openOk i = false) (hopts1 : 0 < optsLen1)
    (habs2 : env2.absOk = true) (hopts2 : 0 < optsLen2) :
    New glob0 env1 32 optsLen1 = (⟨true, none⟩, .ret none (some (.openErr 2))) ∧
    New ⟨true, none⟩ env2 32 optsLen2 = (⟨true, none⟩, .ret none none) := by
  constructor
  · have hloop : openLoop env1.openOk 0 3 = (3, 2, false) := by
      rw [openLoop3_eval]
      simp [hopen1 0 (by omega), hopen1 1 (by omega), hopen1 2 (by omega)]
    rcases hmk1 with h | h <;>
      simp [New, keyLenCheckFails, habs1, hopts1, newDo, glob0, hloop, h]
  · simp [New, keyLenCheckFails, habs2, hopts2, newDo]

/-- Witness for claim C5 in the concrete all-failing then all-succeeding
environments. -/
theorem new_after_failed_open_returns_nil_nil_witness :
    New glob0 envAllFail 32 1 = (⟨true, none⟩, .ret none (some (.openErr 2))) ∧
    New ⟨true, none⟩ envOk 32 1 = (⟨true, none⟩, .ret none none) :=
  new_after_failed_open_returns_nil_nil envAllFail envOk 1 1 rfl (Or.inl rfl)
    (fun _ _ => rfl) (by decide) rfl (by decide)

/-- Writing a counter cell does not change the stored keys, so scan counts
are unchanged. -/
theorem scanCount_setTypeCount (db : Db) (t n u : Nat) :
    scanCount (setTypeCount db t n) u = scanCount db u := rfl

/-- Behavior of the per-type loop when the first fault strikes at the j-th
processed type: the loop reports failure, leaves keys, registry and total
untouched, has written the counters of the first j types to their scanned
counts, and has left every other counter cell alone. -/
theorem recountLoop_partial (fl : IoFaults) :
    ∀ (types : List Nat) (i0 j acc : Nat) (db : Db),
      j < types.length →
      (∀ d, d < j → fl.scanFail (i0 + d) = false ∧ fl.setFail (i0 + d) = false) →
      (fl.scanFail (i0 + j) = true ∨ fl.setFail (i0 + j) = true) →
      types.Nodup →
      (recountLoop fl types i0 acc db).2.2 = false ∧
      (recountLoop fl types i0 acc db).1.keys = db.keys ∧
      (recountLoop fl types i0 acc db).1.registry = db.registry ∧
      (recountLoop fl types i0 acc db).1.totalCount = db.totalCount ∧
      (∀ t ∈ types.take j,
        (recountLoop fl types i0 acc db).1.typeCounts t = some (scanCount db t)) ∧
      (∀ t, t ∉ types.take j →
        (recountLoop fl types i0 acc db).1.typeCounts t = db.typeCounts t) := by
  intro types
  induction types with
  | nil =>
    intro i0 j acc db hj
    simp at hj
  | cons t rest ih =>
    intro i0 j acc db hj hpre hfail hnodup
    cases j with
    | zero =>
      by_cases hs : fl.scanFail i0 = true
      · simp [recountLoop, hs]
      · have hset : fl.setFail i0 = true := by
          rcases hfail with hf | hf
          · exact absurd (by simpa using hf) hs
          · simpa using hf
        simp [recountLoop, hs, hset]
    | succ j' =>
      have h0 := hpre 0 (by omega)
      rw [Nat.add_zero] at h0
      have hpre' : ∀ d, d < j' →
          fl.scanFail (i0 + 1 + d) = false ∧ fl.setFail (i0 + 1 + d) = false := by
        intro d hd
        have := hpre (d + 1) (by omega)
        rwa [show i0 + (d + 1) = i0 + 1 + d by omega] at this
      have hfail' : fl.scanFail (i0 + 1 + j') = true ∨ fl.setFail (i0 + 1 + j') = true := by
        rwa [show i0 + 1 + j' = i0 + (j' + 1) by omega]
      obtain ⟨hhead, hrest⟩ := List.nodup_cons.mp hnodup
      obtain ⟨e1, e2, e3, e4, e5, e6⟩ :=
        ih (i0 + 1) j' (acc + scanCount db t) (setTypeCount db t (scanCount db t))
          (by simpa using hj) hpre' hfail' hrest
      have hstep : recountLoop fl (t :: rest) i0 acc db =
          recountLoop fl rest (i0 + 1) (acc + scanCount db t)
            (setTypeCount db t (scanCount db t)) := by
        simp [recountLoop, h0.1, h0.2]
      rw [hstep]
      refine ⟨e1, by rw [e2]; rfl, by rw [e3]; rfl, by rw [e4]; rfl, ?_, ?_⟩
      · intro u hu
        rw [List.take_succ_cons] at hu
        rcases List.mem_cons.mp hu with rfl | hu'
        · have hnot : u ∉ rest.take j' := fun hmem => hhead (List.take_subset _ _ hmem)
          rw [e6 u hnot]
          simp [setTypeCount]
        · rw [e5 u hu', scanCount_setTypeCount]
      · intro u hu
        rw [List.take_succ_cons] at hu
        have hne : u ≠ t := fun he => hu (he ▸ List.mem_cons_self _ _)
        have hnot : u ∉ rest.take j' := fun hmem => hu (List.mem_cons_of_mem _ hmem)
        rw [e6 u hnot]
        simp [setTypeCount, hne]

/-- Claim C8: when PerformRecount first fails at the j-th registered type
(scan or counter write), it returns an error; the counters of the types
already processed hold their newly written scanned counts, while the
counters of every other type, the total counter, the stored keys and the
registry keep their prior values. -/
theorem performRecount_partial_failure (fl : IoFaults) (db : Db) (j : Nat)
    (hreg : fl.regFail = false)
    (hj : j < db.registry.length)
    (hpre : ∀ d, d < j → fl.scanFail d = false ∧ fl.setFail d = false)
    (hfail : fl.scanFail j = true ∨ fl.setFail j = true)
    (hnodup : db.registry.Nodup) :
    (PerformRecount fl db).2 = false ∧
    (PerformRecount fl db).1.keys = db.keys ∧
    (PerformRecount fl db).1.registry = db.registry ∧
    (PerformRecount fl db).1.totalCount = db.totalCount ∧
    (∀ t ∈ db.registry.take j,
      (PerformRecount fl db).1.typeCounts t = some (scanCount db t)) ∧
    (∀ t, t ∉ db.registry.take j →
      (PerformRecount fl db).1.typeCounts t = db.typeCounts t) := by
  have hne : db.registry.isEmpty = false := by
    cases hre : db.registry with
    | nil => rw [hre] at hj; simp at hj
    | cons a l => simp
  obtain ⟨e1, e2, e3, e4, e5, e6⟩ :=
    recountLoop_partial fl db.registry 0 j 0 db hj (by simpa using hpre)
      (by simpa using hfail) hnodup
  have hr : PerformRecount fl db = ((recountLoop fl db.registry 0 0 db).1, false) := by
    simp [PerformRecount, hreg, hne, e1]
  rw [hr]
  exact ⟨rfl, e2, e3, e4, e5, e6⟩

/-- Witness for claim C8: the scan of the second registered type fails on
a concrete store; the first type's counter is updated, the second type's
counter and the total keep their prior values. -/
theorem performRecount_partial_failure_witness :
    ((PerformRecount faultsAtSecond dbPartial).2 = false ∧
      (PerformRecount faultsAtSecond dbPartial).1.typeCounts 0 =
        some (scanCount dbPartial 0) ∧
      (PerformRecount faultsAtSecond dbPartial).1.typeCounts 1400 =
        dbPartial.typeCounts 1400 ∧
      (PerformRecount faultsAtSecond dbPartial).1.totalCount = dbPartial.totalCount) :=
  ⟨(performRecount_partial_failure faultsAtSecond dbPartial 1 rfl (by decide)
      (by decide) (by decide) (by decide)).1,
   (performRecount_partial_failure faultsAtSecond dbPartial 1 rfl (by decide)
      (by decide) (by decide) (by decide)).2.2.2.2.1 0 (by decide),
   (performRecount_partial_failure faultsAtSecond dbPartial 1 rfl (by decide)
      (by decide) (by decide) (by decide)).2.2.2.2.2 1400 (by decide),
   (performRecount_partial_failure faultsAtSecond dbPartial 1 rfl (by decide)
      (by decide) (by decide) (by decide)).2.2.2.1⟩

/-! ### Canonical-key decomposition (claim C6 support) -/

theorem string_data_inj {s₁ s₂ : String} (h : s₁.data = s₂.data) : s₁ = s₂ :=
  congrArg String.mk h

theorem repr_data_inj {a b : Nat} (h : (Nat.repr a).data = (Nat.repr b).data) : a = b :=
  repr_injective (string_data_inj h)

theorem SHA256Sum_data_length (h : String) : (SHA256Sum h).data.length = 64 := by
  show (hexEncode (sha256Bytes (stringBytes h))).length = 64
  rw [length_hexEncode, length_sha256Bytes]

theorem encode_data (t : Nat) (h : String) :
    (Encode t h).data =
      "krkn:".data ++ ((Nat.repr t).data ++ (':' :: (SHA256Sum h).data)) := by
  show (("krkn:" ++ Nat.repr t ++ ":") ++ SHA256Sum h).data = _
  simp [string_data_append, List.append_assoc]

theorem specTypePrefix_data (t : Nat) :
    (specTypePrefix t).data = "krkn:".data ++ ((Nat.repr t).data ++ [':']) := by
  show (("krkn:" ++ Nat.repr t) ++ ":").data = _
  simp [string_data_append, List.append_assoc]

theorem keyHasPfx_spec_encode (t : Nat) (h : String) :
    keyHasPfx (specTypePrefix t) (Encode t h) = true := by
  unfold keyHasPfx
  rw [List.isPrefixOf_iff_prefix, specTypePrefix_data, encode_data]
  have he : "krkn:".data ++ ((Nat.repr t).data ++ (':' :: (SHA256Sum h).data)) =
      ("krkn:".data ++ ((Nat.repr t).data ++ [':'])) ++ (SHA256Sum h).data := by
    simp [List.append_assoc]
  rw [he]
  exact List.prefix_append _ _

/-- Canonical keys agree only when the hash types agree and the normalized
sums agree: the decimal type marker is colon-free and the sum has fixed
length 64, so the decomposition of the key is unambiguous. -/
theorem Encode_inj {t₁ t₂ : Nat} {h₁ h₂ : String}
    (he : Encode t₁ h₁ = Encode t₂ h₂) : t₁ = t₂ ∧ SHA256Sum h₁ = SHA256Sum h₂ := by
  have hd := congrArg String.data he
  rw [encode_data, encode_data] at hd
  have h2 : (Nat.repr t₁).data ++ (':' :: (SHA256Sum h₁).data) =
      (Nat.repr t₂).data ++ (':' :: (SHA256Sum h₂).data) :=
    List.append_inj_right hd rfl
  have h3 : ((Nat.repr t₁).data ++ [':']) ++ (SHA256Sum h₁).data =
      ((Nat.repr t₂).data ++ [':']) ++ (SHA256Sum h₂).data := by
    simpa [List.append_assoc] using h2
  have hs1 : (SHA256Sum h₁).data.length = (SHA256Sum h₂).data.length := by
    rw [SHA256Sum_data_length, SHA256Sum_data_length]
  obtain ⟨h4, h5⟩ := List.append_inj' h3 hs1
  refine ⟨repr_data_inj (List.append_inj_left' h4 rfl), string_data_inj h5⟩

/-- Claim C6: batch search yields exactly the stored records of the given
type whose original hashes are in the search list, each exactly once, in
ascending key order, and its output depends only on the membership of the
search list, not its order or duplications.  The store is listed in
ascending key order with well-formed canonical keys, and the normalized
sums of the relevant original hashes do not collide. -/
theorem findByHashes_exact_intersection
    (searchList : List String) (t : Nat) (db : List HashRec)
    (hsorted : db.Pairwise (fun r₁ r₂ => keyLt r₁.key r₂.key = true))
    (hwf : ∀ r ∈ db, r.key = Encode r.hashType r.orig)
    (hinj : ∀ h₁ ∈ searchList ++ db.map HashRec.orig,
            ∀ h₂ ∈ searchList ++ db.map HashRec.orig,
            SHA256Sum h₁ = SHA256Sum h₂ → h₁ = h₂) :
    (∀ r, r ∈ findByHashes searchList t db ↔
      r ∈ db ∧ r.hashType = t ∧ r.orig ∈ searchList) ∧
    (findByHashes searchList t db).Pairwise (fun r₁ r₂ => keyLt r₁.key r₂.key = true) ∧
    (∀ s', (∀ x, x ∈ s' ↔ x ∈ searchList) →
      findByHashes s' t db = findByHashes searchList t db) := by
  refine ⟨?_, ?_, ?_⟩
  · intro r
    constructor
    · intro hr
      simp only [findByHashes, scanOfType, List.mem_filter] at hr
      obtain ⟨⟨hdb, _⟩, hcont⟩ := hr
      have hkey : r.key ∈ searchList.map (Encode t) := by
        simpa [List.contains, List.elem_eq_mem] using hcont
      obtain ⟨h', hh', hEq⟩ := List.mem_map.mp hkey
      have hcomp : Encode t h' = Encode r.hashType r.orig := hEq.trans (hwf r hdb)
      obtain ⟨ht, hsha⟩ := Encode_inj hcomp
      have horig : h' = r.orig :=
        hinj h' (List.mem_append_left _ hh') r.orig
          (List.mem_append_right _ (List.mem_map.mpr ⟨r, hdb, rfl⟩)) hsha
      exact ⟨hdb, ht.symm, horig ▸ hh'⟩
    · rintro ⟨hdb, hht, hs⟩
      simp only [findByHashes, scanOfType, List.mem_filter]
      have hkey : r.key = Encode t r.orig := by rw [hwf r hdb, hht]
      refine ⟨⟨hdb, ?_⟩, ?_⟩
      · rw [hkey]; exact keyHasPfx_spec_encode t r.orig
      · have hmem : r.key ∈ searchList.map (Encode t) :=
          List.mem_map.mpr ⟨r.orig, hs, hkey.symm⟩
        simpa [List.contains, List.elem_eq_mem] using hmem
  · exact (hsorted.filter _).filter _
  · intro s' hs'
    unfold findByHashes
    apply List.filter_congr
    intro r _
    have hiff : r.key ∈ s'.map (Encode t) ↔ r.key ∈ searchList.map (Encode t) := by
      simp only [List.mem_map]
      constructor <;> rintro ⟨x, hx, hxe⟩
      · exact ⟨x, (hs' x).mp hx, hxe⟩
      · exact ⟨x, (hs' x).mpr hx, hxe⟩
    simp [List.contains, List.elem_eq_mem, hiff]

/-- Witness for claim C6 on a concrete two-record store and a search list
hitting one of the records. -/
theorem findByHashes_exact_intersection_witness :
    dbRecs.Pairwise (fun r₁ r₂ => keyLt r₁.key r₂.key = true) ∧
    (∀ r ∈ dbRecs, r.key = Encode r.hashType r.orig) ∧
    (∀ r, r ∈ findByHashes ["a", "c"] 0 dbRecs ↔
      r ∈ dbRecs ∧ r.hashType = 0 ∧ r.orig ∈ ["a", "c"]) :=
  ⟨by decide, by decide,
   (findByHashes_exact_intersection ["a", "c"] 0 dbRecs (by decide) (by decide)
      (by decide)).1⟩

end KrknDB
